import Mathlib

/-!
Verification development for `botlib` (relikd/botlib), file
`src/botlib/html2list.py`: a streaming HTML fragment extractor
(`CSSSelector`, `HTML2List`) and a lazy cached regex field layer
(`Grep`, `MatchGroup`).

The Python code is shallowly embedded:

* `HTMLParser` (Python stdlib) tokenization is abstracted: the machine
  consumes a list of `HEvent`s (start tag / self-closing tag / text /
  end tag), mirroring the four `handle_*` callbacks of `HTML2List`.
  Each start tag carries its raw serialized text, the value of
  `get_starttag_text()`.
* Compiled regular expressions (`re` stdlib) are abstracted as
  functions `String → Option (List (Option String))`: `None` for no
  match, otherwise the tuple `match.groups()` of capture groups.
* Python exceptions become `Except PyErr`.
* The Python tag stack `self._elem` (Python appends at the end and
  reads `[-1]`) is stored most-recent-first, so Python `append` is
  `cons` and `self._elem[-1]` is `head`.
-/

namespace Botlib

/-- Python exceptions raised by the code under study. -/
inductive PyErr where
  | keyError (key : String)
  | indexError
  | attributeError
  | runtimeNested
  | notImplemented
  deriving DecidableEq, Repr

/-- Python attribute lists as delivered by `HTMLParser`:
`List[Tuple[str, Optional[str]]]`. -/
abbrev XMLAttrs := List (String × Option String)

/-- ASCII whitespace as matched by Python's `\s` (and stripped by
`str.strip()` / split on by `str.split()`): space, tab, newline,
carriage return, vertical tab, form feed.  (The non-ASCII Unicode
whitespace Python additionally recognizes is not modelled.) -/
def isWS (c : Char) : Bool :=
  c = ' ' || c = '\t' || c = '\n' || c = '\r' || c = '\u000B' || c = '\u000C'

/-- Split a character list at every character satisfying `p`, keeping
empty pieces (like Python `str.split(sep)` for a one-character
separator).  The result is always non-empty. -/
def splitAt1 (p : Char → Bool) : List Char → List (List Char)
  | [] => [[]]
  | c :: rest =>
    match splitAt1 p rest with
    | [] => [[]]
    | h :: t => if p c then [] :: h :: t else (c :: h) :: t

/-- Python `str.split()` with no argument: split on whitespace runs,
discarding empty pieces. -/
def pySplit (s : String) : List String :=
  ((splitAt1 isWS s.data).filter (fun l => l ≠ [])).map (fun l => ⟨l⟩)

/-- Python truthiness of an `Optional[str]`: `None` and `""` are falsy. -/
def truthy : Option String → Bool
  | none => false
  | some s => s ≠ ""

/-- `CSSSelector` (html2list.py lines 13-32): limited support, a single
tag with classes, e.g. `div.class.other`.  `self.tag, *self.cls =
selector.split('.')`. -/
structure CSSSelector where
  tag : String
  cls : List String
  deriving DecidableEq, Repr

/-- `CSSSelector.__init__`: reject selectors containing a space, `>`
or `+` (`NotImplementedError`), otherwise split on `.` into the tag
and the class list. -/
def CSSSelector.ofString (selector : String) : Except PyErr CSSSelector :=
  if selector.data.any (fun c => c = ' ' || c = '>' || c = '+') then
    .error .notImplemented
  else
    match splitAt1 (fun c => c = '.') selector.data with
    | [] => .error .notImplemented
    | t :: cs => .ok ⟨⟨t⟩, cs.map (fun l => ⟨l⟩)⟩

/-- The attribute-scanning loop of `CSSSelector.matches`: find the
first attribute whose key is `class` and whose value is truthy; on it,
require every selector class to be a member of the whitespace-split
value; if no such attribute exists, fail. -/
def CSSSelector.classLoop (cls : List String) : XMLAttrs → Bool
  | [] => false
  | (k, val) :: rest =>
    if k = "class" && truthy val then
      cls.all (fun x => (pySplit (val.getD "")).contains x)
    else
      CSSSelector.classLoop cls rest

/-- `CSSSelector.matches` (html2list.py lines 22-32): test if tag and
attrs match the target selector. -/
def CSSSelector.matches (sel : CSSSelector) (tag : String) (attrs : XMLAttrs) : Bool :=
  if sel.tag ≠ "" && tag ≠ sel.tag then false
  else if sel.cls ≠ [] then CSSSelector.classLoop sel.cls attrs
  else true

/-! ## The `HTML2List` streaming state machine -/

/-- Tokenizer events, one per `HTMLParser` callback received by
`HTML2List`.  `raw` on a (self-closing) start tag is the raw
serialized text of the tag, i.e. `get_starttag_text()`. -/
inductive HEvent where
  | startTag (tag : String) (attrs : XMLAttrs) (raw : String)
  | startEndTag (tag : String) (attrs : XMLAttrs) (raw : String)
  | text (data : String)
  | endTag (tag : String)
  deriving DecidableEq, Repr

/-- The mutable state of an `HTML2List` instance (html2list.py lines
47-53), with the default callback `self._result.append` (so `result`
records the emitted fragments in order).  `elem` is the tag stack,
most recently opened tag first. -/
structure H2LState where
  filter : CSSSelector
  data : String
  elem : List String
  tgt : Nat
  result : List String
  deriving DecidableEq, Repr

/-- A fresh `HTML2List` for an already-constructed selector
(`__init__`). -/
def H2LState.init (sel : CSSSelector) : H2LState :=
  ⟨sel, "", [], 0, []⟩

/-- `HTML2List.handle_starttag` (lines 87-95): push the tag; if the
selector matches, fail on a nested match (`RuntimeError`), otherwise
remember the level `len(self._elem) - 1`; finally, if inside a match,
append the tag's raw text to the data buffer. -/
def handle_starttag (st : H2LState) (tag : String) (attrs : XMLAttrs)
    (raw : String) : Except PyErr H2LState :=
  let st1 := { st with elem := tag :: st.elem }
  if st1.filter.matches tag attrs then
    if st1.tgt > 0 then
      .error .runtimeNested
    else
      let st2 := { st1 with tgt := st1.elem.length - 1 }
      .ok (if st2.tgt > 0 then { st2 with data := st2.data ++ raw } else st2)
  else
    .ok (if st1.tgt > 0 then { st1 with data := st1.data ++ raw } else st1)

/-- `HTML2List.handle_startendtag` (lines 97-101): push the tag and,
if inside a match, append its raw text. -/
def handle_startendtag (st : H2LState) (tag : String) (raw : String) : H2LState :=
  let st1 := { st with elem := tag :: st.elem }
  if st1.tgt > 0 then { st1 with data := st1.data ++ raw } else st1

/-- `HTML2List.handle_data` (lines 103-106). -/
def handle_data (st : H2LState) (d : String) : H2LState :=
  if st.tgt > 0 then { st with data := st.data ++ d } else st

/-- The pop loop of `handle_endtag` (lines 113-115): pop the stack
until the popped name equals `tag`, also popping that frame;
`IndexError` when `self._elem[-1]` is read on an empty stack. -/
def popUntil (tag : String) : List String → Except PyErr (List String)
  | [] => .error .indexError
  | e :: rest => if e = tag then .ok rest else popUntil tag rest

/-- `HTML2List.handle_endtag` (lines 108-122): if inside a match,
append a synthesized `</tag>`; pop the stack; if the stack level is
back at the remembered search level, reset it and emit the buffer to
the callback when non-empty. -/
def handle_endtag (st : H2LState) (tag : String) : Except PyErr H2LState :=
  let st1 :=
    if st.tgt > 0 then { st with data := st.data ++ "</" ++ tag ++ ">" } else st
  match popUntil tag st1.elem with
  | .error e => .error e
  | .ok elem1 =>
    let st2 := { st1 with elem := elem1 }
    if st2.elem.length = st2.tgt then
      let st3 := { st2 with tgt := 0 }
      if st3.data ≠ "" then
        .ok { st3 with result := st3.result ++ [st3.data], data := "" }
      else
        .ok st3
    else
      .ok st2

/-- Dispatch one tokenizer event to the matching handler. -/
def H2LState.step (st : H2LState) : HEvent → Except PyErr H2LState
  | .startTag tag attrs raw => handle_starttag st tag attrs raw
  | .startEndTag tag _ raw => .ok (handle_startendtag st tag raw)
  | .text d => .ok (handle_data st d)
  | .endTag tag => handle_endtag st tag

/-- Feed a whole event list through the machine; an exception in a
handler aborts (and propagates out of `HTMLParser.feed`). -/
def runEvents (st : H2LState) : List HEvent → Except PyErr H2LState
  | [] => .ok st
  | e :: rest =>
    match st.step e with
    | .error err => .error err
    | .ok st1 => runEvents st1 rest

/-- The input stream handed to `HTML2List.parse`, abstracted at the
tokenizer level: each `read(65536)` chunk is given as the event list
its text tokenizes to; `closed` is the stream's open/closed state. -/
structure Source where
  chunks : List (List HEvent)
  closed : Bool
  deriving DecidableEq, Repr

/-- `HTML2List.parse` (lines 55-85): `None` sources yield `[]`;
otherwise every chunk is fed in order (a handler exception propagates,
since the `try` only guards `source.read`), then `source.close()` is
called and `self._result` returned. -/
def parse (st : H2LState) (source : Option Source) :
    Except PyErr (List String × Option Source) :=
  match source with
  | none => .ok ([], none)
  | some src =>
    match runEvents st src.chunks.flatten with
    | .error e => .error e
    | .ok stF => .ok (stF.result, some { src with closed := true })

/-! ## Counting machines for the fragment-count law

`CState`/`crun` counts, with no buffers, the selector-matching start
tags whose subtree closes before stream end, exactly as the extractor
delimits subtrees (spec §4.2): the match is recorded at stack level
`len(stack) - 1` — which is `0` for a document-root match, a level the
extractor treats as "no open match" — and counted when an end tag
returns the stack to that recorded positive level.

`ClaimCount` is modelled from the claim's words instead ("the number
of selector-matching start tags whose subtree closes properly before
stream end"), with no special case at the root: a root-level match is
recorded too (as an open match at depth 0) and counted when its
subtree closes. -/

/-- State of the buffer-free counting machine. -/
structure CState where
  filter : CSSSelector
  elem : List String
  tgt : Nat
  count : Nat
  deriving DecidableEq, Repr

/-- Fresh counting state. -/
def CState.init (sel : CSSSelector) : CState :=
  ⟨sel, [], 0, 0⟩

/-- One event of the buffer-free counter, in lockstep with
`H2LState.step` (same stack, same remembered level, same errors). -/
def CState.step (st : CState) : HEvent → Except PyErr CState
  | .startTag tag attrs _ =>
    let st1 := { st with elem := tag :: st.elem }
    if st1.filter.matches tag attrs then
      if st1.tgt > 0 then .error .runtimeNested
      else .ok { st1 with tgt := st1.elem.length - 1 }
    else .ok st1
  | .startEndTag tag _ _ => .ok { st with elem := tag :: st.elem }
  | .text _ => .ok st
  | .endTag tag =>
    match popUntil tag st.elem with
    | .error e => .error e
    | .ok elem1 =>
      if elem1.length = st.tgt then
        .ok { st with
                elem := elem1
                tgt := 0
                count := st.count + (if st.tgt > 0 then 1 else 0) }
      else
        .ok { st with elem := elem1 }

/-- Run the buffer-free counter over an event list. -/
def crun (st : CState) : List HEvent → Except PyErr CState
  | [] => .ok st
  | e :: rest =>
    match st.step e with
    | .error err => .error err
    | .ok st1 => crun st1 rest

/-- Pop the stack through the first occurrence of `tag` (empty result
when absent); total companion of `popUntil` for the claim-worded
counter. -/
def dropThrough (tag : String) : List String → List String
  | [] => []
  | e :: rest => if e = tag then rest else dropThrough tag rest

/-- Modelled from the claim's words: state for counting every
selector-matching start tag whose subtree closes properly before
stream end, with no exception for matches at the document root. -/
structure ClaimCount where
  filter : CSSSelector
  elem : List String
  openDepth : Option Nat
  count : Nat
  deriving DecidableEq, Repr

/-- Fresh claim-worded counting state. -/
def ClaimCount.init (sel : CSSSelector) : ClaimCount :=
  ⟨sel, [], none, 0⟩

/-- Modelled from the claim's words: record a selector match when not
already inside one; count it when an end tag returns the stack to the
match's base depth (its subtree closed properly). -/
def ClaimCount.step (st : ClaimCount) : HEvent → ClaimCount
  | .startTag tag attrs _ =>
    let st1 := { st with elem := tag :: st.elem }
    match st.openDepth with
    | some _ => st1
    | none =>
      if st.filter.matches tag attrs then
        { st1 with openDepth := some (st1.elem.length - 1) }
      else st1
  | .startEndTag tag _ _ => { st with elem := tag :: st.elem }
  | .text _ => st
  | .endTag tag =>
    let elem1 := dropThrough tag st.elem
    match st.openDepth with
    | some d =>
      if elem1.length = d then
        { st with elem := elem1, openDepth := none, count := st.count + 1 }
      else { st with elem := elem1 }
    | none => { st with elem := elem1 }

/-- Run the claim-worded counter over an event list. -/
def ClaimCount.run (st : ClaimCount) : List HEvent → ClaimCount
  | [] => st
  | e :: rest => ClaimCount.run (st.step e) rest

/-! ## `Grep`: regex snippet extraction with whitespace cleanup -/

/-- `Grep.re_whitespace.sub(' ', ·)` (html2list.py line 131): replace
every maximal run of whitespace with a single space.  Scanning left to
right, a whitespace character followed by more whitespace is dropped
(it is an inner character of its run); the last character of a run
becomes the single space. -/
def collapseWS : List Char → List Char
  | [] => []
  | [c] => if isWS c then [' '] else [c]
  | c1 :: c2 :: rest =>
    if isWS c1 && isWS c2 then collapseWS (c2 :: rest)
    else (if isWS c1 then ' ' else c1) :: collapseWS (c2 :: rest)

/-- Remove the trailing whitespace run (the right half of Python
`str.strip()`). -/
def stripRight : List Char → List Char
  | [] => []
  | c :: rest =>
    match stripRight rest with
    | [] => if isWS c then [] else [c]
    | r => c :: r

/-- Python `str.strip()`: drop whitespace from both ends. -/
def pyStrip (l : List Char) : List Char :=
  stripRight (l.dropWhile isWS)

/-- The `cleanup` branch of `Grep.find` (line 144):
`re_whitespace.sub(' ', res.strip())`. -/
def cleanupText (s : String) : String :=
  ⟨collapseWS (pyStrip s.data)⟩

/-- `Grep` (html2list.py lines 125-145).  The compiled pattern
`self._rgx` is abstracted as `rgxSearch`: `none` when `search` finds
no match, otherwise the tuple `match.groups()` (a capture group that
did not participate is `none`). -/
structure Grep where
  cleanup : Bool
  rgxSearch : String → Option (List (Option String))

/-- `Grep.find` (lines 137-145): search; on no match return `None`;
otherwise take `groups()[0]` (an `IndexError` if the pattern has no
capture group; `res.strip()` is an `AttributeError` if the first group
did not participate and cleanup is on), applying whitespace cleanup
when enabled. -/
def Grep.find (g : Grep) (text : String) : Except PyErr (Option String) :=
  match g.rgxSearch text with
  | none => .ok none
  | some groups =>
    match groups.head? with
    | none => .error .indexError
    | some none => if g.cleanup then .error .attributeError else .ok none
    | some (some res) => .ok (some (if g.cleanup then cleanupText res else res))

/-! ## `MatchGroup`: lazy cached field lookup and templates -/

/-- Python `dict` assignment on an insertion-ordered association
list: overwrite in place or append. -/
def dictInsert (l : List (String × α)) (k : String) (v : α) : List (String × α) :=
  match l with
  | [] => [(k, v)]
  | (k1, v1) :: rest =>
    if k1 = k then (k, v) :: rest else (k1, v1) :: dictInsert rest k v

/-- `MatchGroup` (html2list.py lines 148-207): `regex` is
`self._regex`, `html` is `self._html`, `res` is the `self._res` result
cache (a cached `none` records a search that found nothing). -/
structure MatchGroup where
  regex : List (String × Grep)
  html : String
  res : List (String × Option String)

/-- `MatchGroup.add` (lines 161-169), with an already-built `Grep`. -/
def MatchGroup.add (mg : MatchGroup) (tagname : String) (g : Grep) : MatchGroup :=
  { mg with regex := dictInsert mg.regex tagname g }

/-- `MatchGroup.set_html` (lines 171-175): rebind the text and clear
the whole result cache. -/
def MatchGroup.set_html (mg : MatchGroup) (html : String) : MatchGroup :=
  { mg with html := html, res := [] }

/-- `MatchGroup.__getitem__` (lines 185-195): return the cached result
if `key` was looked up before; otherwise run the field's regex once
against the bound text (`KeyError` if no matcher is configured for
`key`) and cache the outcome.  The third component instruments the
embedding with the number of `Grep.find` invocations this call
performed (0 or 1), so that memoization is statable. -/
def MatchGroup.getItem (mg : MatchGroup) (key : String) :
    Except PyErr (Option String × MatchGroup × Nat) :=
  match mg.res.lookup key with
  | some v => .ok (v, mg, 0)
  | none =>
    match mg.regex.lookup key with
    | none => .error (.keyError key)
    | some g =>
      match g.find mg.html with
      | .error e => .error e
      | .ok v => .ok (v, { mg with res := dictInsert mg.res key v }, 1)

/-- The non-greedy close of `MatchGroup.re_tag` = `{#(.*?)#}` (line
150): scan for the first `#}`; `(.*?)` cannot cross a newline; return
the placeholder name and the text after the `#}`. -/
def findClose : List Char → Option (List Char × List Char)
  | [] => none
  | c :: rest =>
    if c = '#' ∧ rest.head? = some '\x7d' then some ([], rest.tail)
    else if c = '\n' then none
    else
      match findClose rest with
      | none => none
      | some (nm, after) => some (c :: nm, after)

/-- `findClose` consumes at least the closing `#}`. -/
theorem findClose_length (l : List Char) : ∀ nm after,
    findClose l = some (nm, after) → after.length < l.length := by
  induction l with
  | nil => intro nm after h; simp [findClose] at h
  | cons c rest ih =>
    intro nm after h
    simp only [findClose] at h
    split at h
    · cases h
      have h1 : rest.tail.length ≤ rest.length := by
        rw [List.length_tail]
        exact Nat.sub_le _ _
      exact Nat.lt_succ_of_le h1
    · split at h
      · cases h
      · cases hfc : findClose rest with
        | none => rw [hfc] at h; cases h
        | some p =>
          obtain ⟨nm1, after1⟩ := p
          rw [hfc] at h
          cases h
          exact Nat.lt_succ_of_lt (ih _ _ hfc)

/-- `MatchGroup.use_template`'s substitution scan (line 207,
`re_tag.sub(lambda x: self[x.groups()[0]] or '', template)`): each
`\x7b#name#\x7d` placeholder is replaced by the field lookup
`self[name]` (the empty string when the lookup yields no value); an
unmatched `\x7b#` is copied verbatim with scanning resuming right
after the brace; the lookup's cache updates thread left to right.  A
`KeyError` from an unknown name propagates.  `fuel` only bounds the
recursion so that the definition is structural: every step consumes at
least one input character, so any `fuel` larger than the input length
(as passed by `use_template`) never runs out. -/
def useTemplateAux (mg : MatchGroup) : Nat → List Char → Except PyErr (List Char × MatchGroup)
  | _, [] => .ok ([], mg)
  | 0, l => .ok (l, mg)
  | fuel + 1, c :: rest =>
    if c = '\x7b' ∧ rest.head? = some '#' then
      match findClose rest.tail with
      | some (nm, after) =>
        match mg.getItem ⟨nm⟩ with
        | .error e => .error e
        | .ok (v, mg1, _) =>
          match useTemplateAux mg1 fuel after with
          | .error e => .error e
          | .ok (s, mg2) => .ok ((v.getD "").data ++ s, mg2)
      | none =>
        match useTemplateAux mg fuel rest with
        | .error e => .error e
        | .ok (s, mg1) => .ok (c :: s, mg1)
    else
      match useTemplateAux mg fuel rest with
      | .error e => .error e
      | .ok (s, mg1) => .ok (c :: s, mg1)

/-- `MatchGroup.use_template` (lines 205-207), also returning the
final cache state. -/
def use_template (mg : MatchGroup) (template : String) :
    Except PyErr (String × MatchGroup) :=
  match useTemplateAux mg (template.data.length + 1) template.data with
  | .error e => .error e
  | .ok (s, mg1) => .ok (⟨s⟩, mg1)

/-! ## Properties of the whitespace cleanup -/

/-- No two consecutive whitespace characters anywhere in the list. -/
def noConsecWS : List Char → Bool
  | a :: b :: rest => !(isWS a && isWS b) && noConsecWS (b :: rest)
  | _ => true

/-- Neither the first nor the last character is whitespace. -/
def noEdgeWS (l : List Char) : Bool :=
  (match l.head? with
   | none => true
   | some c => !isWS c) &&
  (match l.getLast? with
   | none => true
   | some c => !isWS c)

theorem noConsecWS_cons (a : Char) (l : List Char) :
    noConsecWS (a :: l)
      = ((match l.head? with
          | none => true
          | some b => !(isWS a && isWS b)) && noConsecWS l) := by
  cases l <;> simp [noConsecWS]

theorem collapseWS_head (l : List Char) :
    (collapseWS l).head? = l.head?.map (fun c => if isWS c then ' ' else c) := by
  induction l using collapseWS.induct with
  | case1 => rfl
  | case2 c hw => simp [collapseWS, hw]
  | case3 c hw => simp [collapseWS, hw]
  | case4 c1 c2 rest hww ih =>
    obtain ⟨h1, h2⟩ : isWS c1 = true ∧ isWS c2 = true := by simpa using hww
    simp [collapseWS, hww, ih, h1, h2]
  | case5 c1 c2 rest hww ih => simp [collapseWS, hww]

theorem collapseWS_ne_nil (l : List Char) (h : l ≠ []) : collapseWS l ≠ [] := by
  induction l using collapseWS.induct with
  | case1 => exact absurd rfl h
  | case2 c hw => simp [collapseWS, hw]
  | case3 c hw => simp [collapseWS, hw]
  | case4 c1 c2 rest hww ih =>
    rw [collapseWS, if_pos hww]
    exact ih (by simp)
  | case5 c1 c2 rest hww ih =>
    rw [collapseWS, if_neg hww]
    simp

theorem collapseWS_getLast (l : List Char) : ∀ c, l.getLast? = some c →
    isWS c = false → (collapseWS l).getLast? = some c := by
  induction l using collapseWS.induct with
  | case1 => intro c h _; cases h
  | case2 c hw =>
    intro c0 h hwc
    simp at h
    rw [← h, hw] at hwc
    cases hwc
  | case3 c hw =>
    intro c0 h hwc
    simp at h
    subst h
    simp [collapseWS, hw]
  | case4 c1 c2 rest hww ih =>
    intro c0 h hwc
    rw [List.getLast?_cons_cons] at h
    rw [collapseWS, if_pos hww]
    exact ih c0 h hwc
  | case5 c1 c2 rest hww ih =>
    intro c0 h hwc
    rw [List.getLast?_cons_cons] at h
    rw [collapseWS, if_neg hww]
    have hne : collapseWS (c2 :: rest) ≠ [] := collapseWS_ne_nil _ (by simp)
    cases hcw : collapseWS (c2 :: rest) with
    | nil => exact absurd hcw hne
    | cons x xs =>
      rw [List.getLast?_cons_cons, ← hcw]
      exact ih c0 h hwc

theorem collapseWS_noConsec (l : List Char) : noConsecWS (collapseWS l) = true := by
  induction l using collapseWS.induct with
  | case1 => rfl
  | case2 c hw => simp [collapseWS, hw, noConsecWS]
  | case3 c hw => simp [collapseWS, hw, noConsecWS]
  | case4 c1 c2 rest hww ih =>
    rw [collapseWS, if_pos hww]
    exact ih
  | case5 c1 c2 rest hww ih =>
    rw [collapseWS, if_neg hww]
    rw [noConsecWS_cons, collapseWS_head]
    by_cases h1 : isWS c1 <;> by_cases h2 : isWS c2
    · exact absurd (by simp [h1, h2]) hww
    · simp [h1, h2, ih]
    · simp [h1, h2, ih]
    · simp [h1, h2, ih]

theorem dropWhile_head_not (p : Char → Bool) (l : List Char) :
    ∀ c, (l.dropWhile p).head? = some c → p c = false := by
  induction l with
  | nil => intro c h; simp [List.dropWhile] at h
  | cons a rest ih =>
    intro c h
    by_cases hp : p a
    · rw [List.dropWhile_cons_of_pos hp] at h
      exact ih c h
    · rw [List.dropWhile_cons_of_neg hp] at h
      cases h
      simpa using hp

theorem stripRight_head (l : List Char) :
    (stripRight l).head? = l.head? ∨ stripRight l = [] := by
  cases l with
  | nil => exact Or.inr rfl
  | cons c rest =>
    rw [stripRight]
    cases hs : stripRight rest with
    | nil =>
      by_cases hw : isWS c
      · simp [hw]
      · simp [hw]
    | cons x xs => simp

theorem stripRight_getLast (l : List Char) :
    ∀ c, (stripRight l).getLast? = some c → isWS c = false := by
  induction l with
  | nil => intro c h; simp [stripRight] at h
  | cons a rest ih =>
    intro c h
    rw [stripRight] at h
    cases hs : stripRight rest with
    | nil =>
      rw [hs] at h
      by_cases hw : isWS a
      · simp [hw] at h
      · simp [hw] at h
        cases h
        simpa using hw
    | cons x xs =>
      rw [hs] at h
      rw [List.getLast?_cons_cons] at h
      exact ih c (hs ▸ h)

theorem pyStrip_head (l : List Char) :
    ∀ c, (pyStrip l).head? = some c → isWS c = false := by
  intro c h
  unfold pyStrip at h
  rcases stripRight_head (l.dropWhile isWS) with he | he
  · rw [he] at h
    exact dropWhile_head_not isWS l c h
  · rw [he] at h
    cases h

theorem pyStrip_getLast (l : List Char) :
    ∀ c, (pyStrip l).getLast? = some c → isWS c = false :=
  fun c h => stripRight_getLast _ c h

theorem cleanupText_clean (s : String) :
    noConsecWS (cleanupText s).data = true ∧ noEdgeWS (cleanupText s).data = true := by
  have hdata : (cleanupText s).data = collapseWS (pyStrip s.data) := rfl
  refine ⟨hdata ▸ collapseWS_noConsec _, ?_⟩
  rw [hdata]
  unfold noEdgeWS
  have hh : (match (collapseWS (pyStrip s.data)).head? with
      | none => true
      | some c => !isWS c) = true := by
    cases hh0 : (collapseWS (pyStrip s.data)).head? with
    | none => rfl
    | some c =>
      rw [collapseWS_head] at hh0
      cases hl : (pyStrip s.data).head? with
      | none => rw [hl] at hh0; cases hh0
      | some c0 =>
        rw [hl] at hh0
        have hws := pyStrip_head s.data c0 hl
        simp [hws] at hh0
        simp [← hh0, hws]
  have hg : (match (collapseWS (pyStrip s.data)).getLast? with
      | none => true
      | some c => !isWS c) = true := by
    cases hl : (pyStrip s.data).getLast? with
    | none =>
      have : pyStrip s.data = [] := by
        cases hx : pyStrip s.data with
        | nil => rfl
        | cons y ys => rw [hx] at hl; simp at hl
      rw [this]
      rfl
    | some c0 =>
      have hws := pyStrip_getLast s.data c0 hl
      rw [collapseWS_getLast _ c0 hl hws]
      simp [hws]
  rw [hh, hg]
  rfl

/-! ## Lockstep between the extractor and the buffer-free counter -/

/-- Forget the buffers: project the extractor state onto the counter
state, the emitted-fragment count being the length of `result`. -/
def absC (st : H2LState) : CState :=
  ⟨st.filter, st.elem, st.tgt, st.result.length⟩

/-- Buffer invariant: while no (non-root) match is open, the data
buffer is empty. -/
def dataInv (st : H2LState) : Prop := st.tgt = 0 → st.data = ""

theorem append_endtag_ne_empty (s t : String) : s ++ "</" ++ t ++ ">" ≠ "" := by
  intro h
  have h2 := congrArg String.data h
  simp [String.data_append] at h2

theorem step_absC (st : H2LState) (e : HEvent) (hinv : dataInv st) :
    (st.step e).map absC = (absC st).step e := by
  cases e with
  | startTag tag attrs raw =>
    show (handle_starttag st tag attrs raw).map absC = _
    simp only [handle_starttag, CState.step, absC]
    split_ifs <;> rfl
  | startEndTag tag attrs raw =>
    show Except.map absC (.ok (handle_startendtag st tag raw)) = _
    simp only [handle_startendtag, CState.step, absC]
    split_ifs <;> rfl
  | text d =>
    show Except.map absC (.ok (handle_data st d)) = _
    simp only [handle_data, CState.step, absC]
    split_ifs <;> rfl
  | endTag tag =>
    show (handle_endtag st tag).map absC = _
    by_cases ht : st.tgt > 0
    · simp only [handle_endtag, CState.step, absC, ht, if_true]
      cases hp : popUntil tag st.elem with
      | error err => rfl
      | ok elem1 =>
        by_cases hl : elem1.length = st.tgt
        · have hne := append_endtag_ne_empty st.data tag
          simp [hl, hne, ht, Except.map, List.length_append, absC]
        · simp [hl, Except.map, absC]
    · have hd : st.data = "" := hinv (Nat.eq_zero_of_not_pos ht)
      simp only [handle_endtag, CState.step, absC, ht, if_false]
      cases hp : popUntil tag st.elem with
      | error err => rfl
      | ok elem1 =>
        by_cases hl : elem1.length = st.tgt
        · simp [hl, hd, ht, Except.map, absC]
        · simp [hl, Except.map, absC]

theorem step_dataInv (st st1 : H2LState) (e : HEvent) (hinv : dataInv st)
    (h : st.step e = .ok st1) : dataInv st1 := by
  cases e with
  | startTag tag attrs raw =>
    simp only [H2LState.step, handle_starttag, List.length_cons,
      Nat.add_sub_cancel] at h
    by_cases hm : st.filter.matches tag attrs
    · by_cases ht : st.tgt > 0
      · simp [hm, ht] at h
      · by_cases hi : st.elem.length > 0
        · simp [hm, ht, hi] at h
          subst h
          intro h0
          exact absurd (show st.elem.length = 0 from h0) (by omega)
        · simp [hm, ht, hi] at h
          subst h
          intro _
          exact hinv (by omega)
    · by_cases ht : st.tgt > 0
      · simp [hm, ht] at h
        subst h
        intro h0
        exact absurd (show st.tgt = 0 from h0) (by omega)
      · simp [hm, ht] at h
        subst h
        intro _
        exact hinv (by omega)
  | startEndTag tag attrs raw =>
    simp only [H2LState.step, handle_startendtag] at h
    by_cases ht : st.tgt > 0
    · simp [ht] at h
      subst h
      intro h0
      exact absurd (show st.tgt = 0 from h0) (by omega)
    · simp [ht] at h
      subst h
      intro _
      exact hinv (by omega)
  | text d =>
    simp only [H2LState.step, handle_data] at h
    by_cases ht : st.tgt > 0
    · simp [ht] at h
      subst h
      intro h0
      exact absurd (show st.tgt = 0 from h0) (by omega)
    · simp [ht] at h
      subst h
      intro _
      exact hinv (by omega)
  | endTag tag =>
    simp only [H2LState.step, handle_endtag] at h
    by_cases ht : st.tgt > 0
    · simp only [ht, if_true] at h
      cases hp : popUntil tag st.elem with
      | error err => rw [hp] at h; cases h
      | ok elem1 =>
        rw [hp] at h
        by_cases hl : elem1.length = st.tgt
        · have hne := append_endtag_ne_empty st.data tag
          simp [hl, hne] at h
          subst h
          intro _
          rfl
        · simp [hl] at h
          subst h
          intro h0
          exact absurd (show st.tgt = 0 from h0) (by omega)
    · have hd : st.data = "" := hinv (by omega)
      simp only [ht, if_false] at h
      cases hp : popUntil tag st.elem with
      | error err => rw [hp] at h; cases h
      | ok elem1 =>
        rw [hp] at h
        by_cases hl : elem1.length = st.tgt
        · simp [hl, hd] at h
          subst h
          intro _
          rfl
        · simp [hl] at h
          subst h
          intro _
          exact hd

theorem runEvents_absC (evts : List HEvent) : ∀ st : H2LState, dataInv st →
    (runEvents st evts).map absC = crun (absC st) evts := by
  induction evts with
  | nil => intro st _; rfl
  | cons e rest ih =>
    intro st hinv
    have habs := step_absC st e hinv
    rw [runEvents, crun]
    cases hs : st.step e with
    | error err =>
      rw [hs] at habs
      rw [← habs]
      rfl
    | ok st1 =>
      rw [hs] at habs
      rw [← habs]
      exact ih st1 (step_dataInv st st1 e hinv hs)

/-! ## Dictionary and selector helper lemmas -/

theorem lookup_dictInsert {α : Type} (l : List (String × α)) (k : String) (v : α) :
    (dictInsert l k v).lookup k = some v := by
  induction l with
  | nil => simp [dictInsert, List.lookup]
  | cons p rest ih =>
    obtain ⟨k1, v1⟩ := p
    rw [dictInsert]
    by_cases hk : k1 = k
    · simp [hk, List.lookup]
    · have hb : (k == k1) = false := by simp [beq_eq_false_iff_ne, Ne.symm hk]
      simp only [hk, if_false]
      rw [List.lookup]
      simp only [hb]
      exact ih

theorem lookup_none_of_filter_nil (rest : XMLAttrs)
    (h : (rest.filter (fun p => p.1 = "class")).length = 0) :
    rest.lookup "class" = none := by
  induction rest with
  | nil => rfl
  | cons p r ih =>
    obtain ⟨k, v⟩ := p
    by_cases hk : k = "class"
    · subst hk
      simp [List.filter_cons] at h
    · have hb : ("class" == k) = false := by simp [beq_eq_false_iff_ne, Ne.symm hk]
      rw [List.lookup]
      simp only [hb]
      apply ih
      simpa [List.filter_cons, hk] using h

theorem classLoop_no_class (cls : List String) (attrs : XMLAttrs)
    (h : attrs.lookup "class" = none) : CSSSelector.classLoop cls attrs = false := by
  induction attrs with
  | nil => rfl
  | cons p rest ih =>
    obtain ⟨k, val⟩ := p
    rw [CSSSelector.classLoop]
    by_cases hk : k = "class"
    · subst hk
      rw [List.lookup] at h
      simp at h
    · have hb : ("class" == k) = false := by simp [beq_eq_false_iff_ne, Ne.symm hk]
      rw [List.lookup] at h
      simp only [hb] at h
      simp [hk]
      exact ih h

theorem pySplit_empty : pySplit "" = [] := rfl

theorem classLoop_iff (cls : List String) (hcls : cls ≠ []) :
    ∀ attrs : XMLAttrs, (attrs.filter (fun p => p.1 = "class")).length ≤ 1 →
    (CSSSelector.classLoop cls attrs = true ↔
      ∃ v, attrs.lookup "class" = some (some v) ∧ ∀ c ∈ cls, c ∈ pySplit v) := by
  intro attrs
  induction attrs with
  | nil =>
    intro _
    simp [CSSSelector.classLoop, List.lookup]
  | cons p rest ih =>
    obtain ⟨k, val⟩ := p
    intro huniq
    by_cases hk : k = "class"
    · subst hk
      have hstep : (( ("class", val) :: rest).filter (fun p => p.1 = "class"))
          = ("class", val) :: rest.filter (fun p => p.1 = "class") := by
        simp [List.filter_cons]
      rw [hstep] at huniq
      have hrest0 : (rest.filter (fun p => p.1 = "class")).length = 0 := by
        simp only [List.length_cons] at huniq
        omega
      have hrest := classLoop_no_class cls rest (lookup_none_of_filter_nil rest hrest0)
      have hlk : List.lookup "class" (("class", val) :: rest) = some val := by
        simp [List.lookup]
      cases val with
      | none =>
        rw [CSSSelector.classLoop]
        rw [if_neg (by simp [truthy] : ¬((decide ("class" = "class") && truthy none) = true))]
        rw [hrest, hlk]
        simp
      | some v0 =>
        by_cases hv : v0 = ""
        · subst hv
          obtain ⟨c0, cls1, rfl⟩ : ∃ c0 cls1, cls = c0 :: cls1 := by
            cases cls with
            | nil => exact absurd rfl hcls
            | cons a b => exact ⟨a, b, rfl⟩
          rw [CSSSelector.classLoop]
          rw [if_neg (by simp [truthy] :
            ¬((decide ("class" = "class") && truthy (some "")) = true))]
          rw [hrest, hlk]
          simp [pySplit_empty]
        · rw [CSSSelector.classLoop]
          rw [if_pos (by simp [truthy, hv] :
            ((decide ("class" = "class") && truthy (some v0)) = true))]
          rw [hlk]
          rw [List.all_eq_true]
          constructor
          · intro hall
            refine ⟨v0, rfl, ?_⟩
            intro c hc
            exact List.elem_iff.mp (by simpa using hall c hc)
          · rintro ⟨v, hv2, hall⟩
            cases hv2
            intro c hc
            simpa using List.elem_iff.mpr (hall c hc)
    · have hb : ("class" == k) = false := by simp [beq_eq_false_iff_ne, Ne.symm hk]
      rw [CSSSelector.classLoop]
      rw [if_neg (by simp [hk] : ¬((decide (k = "class") && truthy val) = true))]
      have huniq2 : (rest.filter (fun p => p.1 = "class")).length ≤ 1 := by
        have hstep : ((k, val) :: rest).filter (fun p => p.1 = "class")
            = rest.filter (fun p => p.1 = "class") := by
          simp [List.filter_cons, hk]
        rwa [hstep] at huniq
      rw [ih huniq2]
      rw [List.lookup]
      simp only [hb]

theorem getItem_cache_hit (mg : MatchGroup) (k : String) (v : Option String)
    (h : mg.res.lookup k = some v) : mg.getItem k = .ok (v, mg, 0) := by
  unfold MatchGroup.getItem
  rw [h]

/-! ## The claims -/

/-- **C1, counterexample.**  The claim "the number of emitted fragments
equals the number of selector-matching start tags whose subtree closes
properly before stream end" fails when the matching start tag sits at
the root of the stack: on the stream `<li class="x">A</li>` with
selector `li.x` the extractor emits no fragment (the remembered level
`len(stack) - 1` is `0`, which the extractor treats as "no open
match"), while the claim-worded count of matching start tags whose
subtree closes properly is `1`. -/
theorem c1_root_match_counterexample :
    (runEvents (H2LState.init ⟨"li", ["x"]⟩)
        [.startTag "li" [("class", some "x")] "<li class=\"x\">",
         .text "A", .endTag "li"]).map (fun st => st.result.length) = .ok 0 ∧
    ((ClaimCount.init ⟨"li", ["x"]⟩).run
        [.startTag "li" [("class", some "x")] "<li class=\"x\">",
         .text "A", .endTag "li"]).count = 1 :=
  ⟨rfl, rfl⟩

/-- **C1, amended.**  For every input event stream, the number of
fragments emitted by the extractor equals the number of
selector-matching start tags at a non-root stack level whose subtree
closes properly before stream end (as counted by the buffer-free
counter `crun`, which records a match at level `len(stack) - 1` — zero,
i.e. "none", for a root-level match — and counts it when an end tag
returns the stack to that positive level); a matched start tag whose
subtree is still open at stream end is counted by neither side
(partial fragments are never emitted), and failing runs fail
identically on both sides. -/
theorem c1_fragment_count_amended (sel : CSSSelector) (evts : List HEvent) :
    (runEvents (H2LState.init sel) evts).map (fun st => st.result.length)
      = (crun (CState.init sel) evts).map (fun st => st.count) := by
  have h := runEvents_absC evts (H2LState.init sel) (fun _ => rfl)
  calc (runEvents (H2LState.init sel) evts).map (fun st => st.result.length)
      = ((runEvents (H2LState.init sel) evts).map absC).map (fun c => c.count) := by
        cases runEvents (H2LState.init sel) evts <;> rfl
    _ = (crun (CState.init sel) evts).map (fun st => st.count) := by
        rw [h]
        rfl

/-- **C2, counterexample.**  `parse` does not leave the source's
open/closed state unchanged: on an (empty) open source it returns with
the source closed. -/
theorem c2_parse_closes_source_counterexample :
    parse (H2LState.init ⟨"li", ["x"]⟩) (some ⟨[], false⟩)
        = .ok ([], some ⟨[], true⟩) ∧
    (⟨[], true⟩ : Source).closed ≠ (⟨[], false⟩ : Source).closed :=
  ⟨rfl, by decide⟩

/-- **C2, amended.**  Whenever `HTML2List.parse` returns normally on a
present source, it has itself called `source.close()`: the returned
source state is the input source with `closed := true` (line 83 of
html2list.py), so closing is not left to the caller. -/
theorem c2_parse_closes_source (st : H2LState) (src : Source)
    (out : List String) (osrc : Option Source)
    (h : parse st (some src) = .ok (out, osrc)) :
    osrc = some { src with closed := true } := by
  simp only [parse] at h
  cases hr : runEvents st src.chunks.flatten with
  | error e => rw [hr] at h; cases h
  | ok stF =>
    rw [hr] at h
    cases h
    rfl

theorem c2_parse_closes_source_witness :
    (some (⟨[], true⟩ : Source))
      = some ({ (⟨[], false⟩ : Source) with closed := true }) :=
  c2_parse_closes_source (H2LState.init ⟨"li", ["x"]⟩) ⟨[], false⟩ []
    (some ⟨[], true⟩) rfl

/-- **C3.**  If a start tag matches the selector while the extractor is
already inside a matched fragment (`target_depth ≠ 0`), the handler —
and with it the whole parse run — fails with the nested-match
`RuntimeError`, reported to the caller. -/
theorem c3_nested_match_error (st : H2LState) (tag : String) (attrs : XMLAttrs)
    (raw : String) (rest : List HEvent)
    (hin : st.tgt > 0) (hm : st.filter.matches tag attrs = true) :
    handle_starttag st tag attrs raw = .error .runtimeNested ∧
    runEvents st (.startTag tag attrs raw :: rest) = .error .runtimeNested := by
  have h1 : handle_starttag st tag attrs raw = .error .runtimeNested := by
    simp [handle_starttag, hm, hin]
  refine ⟨h1, ?_⟩
  rw [runEvents]
  have h2 : st.step (.startTag tag attrs raw) = .error .runtimeNested := h1
  rw [h2]

theorem c3_nested_match_error_witness :
    handle_starttag ⟨⟨"li", ["x"]⟩, "<li class=\"x\">", ["li", "div"], 1, []⟩
        "li" [("class", some "x")] "<li class=\"x\">" = .error .runtimeNested ∧
    runEvents ⟨⟨"li", ["x"]⟩, "<li class=\"x\">", ["li", "div"], 1, []⟩
        [.startTag "li" [("class", some "x")] "<li class=\"x\">"]
      = .error .runtimeNested :=
  c3_nested_match_error _ _ _ _ [] (by decide) (by decide)

/-- **C4.**  After one binding, each field's regex search runs at most
once (`n ≤ 1` searches on the first lookup); a second lookup of the
same field returns the cached result — including a cached `none` —
with zero searches and no state change; and rebinding via `set_html`
clears the entire result cache. -/
theorem c4_memoization (mg : MatchGroup) (k html : String) (v : Option String)
    (mg1 : MatchGroup) (n : Nat) (h : mg.getItem k = .ok (v, mg1, n)) :
    n ≤ 1 ∧ mg1.getItem k = .ok (v, mg1, 0) ∧ (mg.set_html html).res = [] := by
  unfold MatchGroup.getItem at h
  split at h
  · rename_i v0 hres
    cases h
    exact ⟨by omega, getItem_cache_hit _ _ _ hres, rfl⟩
  · split at h
    · cases h
    · split at h
      · cases h
      · cases h
        exact ⟨by omega, getItem_cache_hit _ _ _ (lookup_dictInsert _ _ _), rfl⟩

theorem c4_memoization_witness :
    (1 : Nat) ≤ 1 ∧
    MatchGroup.getItem
        ⟨[("t", ⟨true, fun _ => some [some "Hi"]⟩)], "txt", [("t", some "Hi")]⟩ "t"
      = .ok (some "Hi",
          ⟨[("t", ⟨true, fun _ => some [some "Hi"]⟩)], "txt", [("t", some "Hi")]⟩, 0) ∧
    (MatchGroup.set_html
        ⟨[("t", ⟨true, fun _ => some [some "Hi"]⟩)], "txt", []⟩ "new").res = [] :=
  c4_memoization ⟨[("t", ⟨true, fun _ => some [some "Hi"]⟩)], "txt", []⟩ "t" "new"
    (some "Hi")
    ⟨[("t", ⟨true, fun _ => some [some "Hi"]⟩)], "txt", [("t", some "Hi")]⟩ 1 rfl

/-- **C5.**  For a selector with required classes (and attribute lists
carrying at most one `class` attribute, as in well-formed markup),
`matches` succeeds iff the tag name agrees (when the selector names
one) and every selector class occurs in the whitespace-split value of
the `class` attribute — order-independent, extra classes ignored,
failing when the attribute is absent.  In particular `.a.b` matches
`class="b a c"` but not `class="a"`, and fails on an empty attribute
list. -/
theorem c5_class_matching (sel : CSSSelector) (tag : String) (attrs : XMLAttrs)
    (hcls : sel.cls ≠ [])
    (huniq : (attrs.filter (fun p => p.1 = "class")).length ≤ 1) :
    (sel.matches tag attrs = true ↔
      ((sel.tag = "" ∨ tag = sel.tag) ∧
       ∃ v, attrs.lookup "class" = some (some v) ∧ ∀ c ∈ sel.cls, c ∈ pySplit v)) ∧
    CSSSelector.matches ⟨"", ["a", "b"]⟩ "div" [("class", some "b a c")] = true ∧
    CSSSelector.matches ⟨"", ["a", "b"]⟩ "div" [("class", some "a")] = false ∧
    CSSSelector.matches ⟨"", ["a", "b"]⟩ "div" [] = false := by
  refine ⟨?_, by decide, by decide, by decide⟩
  unfold CSSSelector.matches
  by_cases ht : sel.tag = "" ∨ tag = sel.tag
  · have hcond : (decide (sel.tag ≠ "") && decide (tag ≠ sel.tag)) = false := by
      rcases ht with ht | ht <;> simp [ht]
    rw [if_neg (by simp only [hcond]; exact Bool.false_ne_true)]
    rw [if_pos hcls]
    rw [classLoop_iff sel.cls hcls attrs huniq]
    constructor
    · intro hx
      exact ⟨ht, hx⟩
    · rintro ⟨_, hx⟩
      exact hx
  · have h1 : ¬ sel.tag = "" := fun he => ht (Or.inl he)
    have h2 : ¬ tag = sel.tag := fun he => ht (Or.inr he)
    rw [if_pos (by simp [h1, h2])]
    simp [ht]

theorem c5_class_matching_witness :
    ((CSSSelector.matches ⟨"", ["a", "b"]⟩ "div" [("class", some "b a c")] = true ↔
      (((⟨"", ["a", "b"]⟩ : CSSSelector).tag = ""
          ∨ "div" = (⟨"", ["a", "b"]⟩ : CSSSelector).tag) ∧
       ∃ v, List.lookup "class" [("class", some "b a c")] = some (some v) ∧
         ∀ c ∈ (⟨"", ["a", "b"]⟩ : CSSSelector).cls, c ∈ pySplit v)) ∧
    CSSSelector.matches ⟨"", ["a", "b"]⟩ "div" [("class", some "b a c")] = true ∧
    CSSSelector.matches ⟨"", ["a", "b"]⟩ "div" [("class", some "a")] = false ∧
    CSSSelector.matches ⟨"", ["a", "b"]⟩ "div" [] = false) :=
  c5_class_matching ⟨"", ["a", "b"]⟩ "div" [("class", some "b a c")]
    (by decide) (by decide)

/-- **C6.**  Whenever a `Grep` with `cleanup = true` finds a match, the
returned string has no two consecutive whitespace characters and no
leading or trailing whitespace (whitespace as in `re_whitespace`:
space, tab, newline, carriage return, vertical tab, form feed). -/
theorem c6_cleanup_whitespace (g : Grep) (text r : String)
    (hc : g.cleanup = true) (h : g.find text = .ok (some r)) :
    noConsecWS r.data = true ∧ noEdgeWS r.data = true := by
  unfold Grep.find at h
  split at h
  · simp at h
  · split at h
    · simp at h
    · rw [hc] at h
      simp at h
    · rename_i res heq
      rw [hc] at h
      simp at h
      subst h
      exact cleanupText_clean res

theorem c6_cleanup_whitespace_witness :
    noConsecWS (String.data "a b") = true ∧ noEdgeWS (String.data "a b") = true :=
  c6_cleanup_whitespace ⟨true, fun _ => some [some "  a\n\n b  "]⟩ "text" "a b"
    rfl rfl

/-- **C7.**  Looking up a field with no configured matcher raises
`KeyError` — via a direct `__getitem__` call (first conjunct, for any
state whose cache and matcher table lack the key) and via a template
placeholder naming an unconfigured field (second conjunct: the spec's
scenario `{#title#}: {#missing#}` with only `title` configured), never
silently rendered. -/
theorem c7_unknown_field_keyerror (mg : MatchGroup) (k : String)
    (hres : mg.res.lookup k = none) (hreg : mg.regex.lookup k = none) :
    mg.getItem k = .error (.keyError k) ∧
    use_template ⟨[("title", ⟨true, fun _ => some [some "Hello"]⟩)], "bound", []⟩
        "\x7b#title#\x7d: \x7b#missing#\x7d" = .error (.keyError "missing") := by
  refine ⟨?_, rfl⟩
  unfold MatchGroup.getItem
  rw [hres, hreg]

theorem c7_unknown_field_keyerror_witness :
    MatchGroup.getItem ⟨[], "", []⟩ "missing" = .error (.keyError "missing") ∧
    use_template ⟨[("title", ⟨true, fun _ => some [some "Hello"]⟩)], "bound", []⟩
        "\x7b#title#\x7d: \x7b#missing#\x7d" = .error (.keyError "missing") :=
  c7_unknown_field_keyerror ⟨[], "", []⟩ "missing" rfl rfl

/-- **C8.**  A configured field whose regex finds no match is not an
error: the lookup returns no value (`none`) after one search and
caches that `none`; a repeated lookup serves the cached `none` with no
further search; and a template placeholder for such a field renders as
the empty string (concrete scenario in the last conjunct). -/
theorem c8_unmatched_field_none (mg : MatchGroup) (k : String) (g : Grep)
    (hres : mg.res.lookup k = none) (hreg : mg.regex.lookup k = some g)
    (hsearch : g.rgxSearch mg.html = none) :
    mg.getItem k = .ok (none, { mg with res := dictInsert mg.res k none }, 1) ∧
    MatchGroup.getItem { mg with res := dictInsert mg.res k none } k
      = .ok (none, { mg with res := dictInsert mg.res k none }, 0) ∧
    (use_template ⟨[("t", ⟨true, fun _ => none⟩)], "x", []⟩ "[\x7b#t#\x7d]").map
        Prod.fst = .ok "[]" := by
  have hfind : g.find mg.html = .ok none := by
    unfold Grep.find
    rw [hsearch]
  refine ⟨?_, ?_, rfl⟩
  · unfold MatchGroup.getItem
    rw [hres, hreg]
    dsimp only
    rw [hfind]
  · exact getItem_cache_hit _ _ _ (lookup_dictInsert _ _ _)

theorem c8_unmatched_field_none_witness :
    MatchGroup.getItem ⟨[("t", ⟨true, fun _ => none⟩)], "x", []⟩ "t"
      = .ok (none, ⟨[("t", ⟨true, fun _ => none⟩)], "x", [("t", none)]⟩, 1) ∧
    MatchGroup.getItem ⟨[("t", ⟨true, fun _ => none⟩)], "x", [("t", none)]⟩ "t"
      = .ok (none, ⟨[("t", ⟨true, fun _ => none⟩)], "x", [("t", none)]⟩, 0) ∧
    (use_template ⟨[("t", ⟨true, fun _ => none⟩)], "x", []⟩ "[\x7b#t#\x7d]").map
        Prod.fst = .ok "[]" := by
  have h := c8_unmatched_field_none ⟨[("t", ⟨true, fun _ => none⟩)], "x", []⟩ "t"
    ⟨true, fun _ => none⟩ rfl rfl rfl
  exact h

/-- **C9.**  The selector string `li.x` parses to tag `li` with class
`x`, and running the extractor on the tokenization of
`<ul><li class="x">A</li><li class="y">B</li></ul>` emits exactly the
single fragment `<li class="x">A</li>`. -/
theorem c9_single_fragment :
    CSSSelector.ofString "li.x" = .ok ⟨"li", ["x"]⟩ ∧
    (runEvents (H2LState.init ⟨"li", ["x"]⟩)
        [.startTag "ul" [] "<ul>",
         .startTag "li" [("class", some "x")] "<li class=\"x\">",
         .text "A",
         .endTag "li",
         .startTag "li" [("class", some "y")] "<li class=\"y\">",
         .text "B",
         .endTag "li",
         .endTag "ul"]).map (fun st => st.result)
      = .ok ["<li class=\"x\">A</li>"] :=
  ⟨rfl, rfl⟩

/-- **C10.**  When the compiled pattern matches but carries zero
capture groups (`match.groups()` is the empty tuple), `Grep.find`
raises `IndexError` on `groups()[0]` instead of returning `None` or
the whole match — the one-capture-group invariant is assumed, not
validated at construction. -/
theorem c10_zero_groups_indexerror (g : Grep) (text : String)
    (h : g.rgxSearch text = some []) :
    g.find text = .error .indexError := by
  unfold Grep.find
  rw [h]
  rfl

theorem c10_zero_groups_indexerror_witness :
    Grep.find ⟨true, fun _ => some []⟩ "anything" = .error .indexError :=
  c10_zero_groups_indexerror ⟨true, fun _ => some []⟩ "anything" rfl

end Botlib
